import Mathlib

/-!
Verification of the segment broadcast server of host.py (with participant.py as
the HLS-variant receiver, out of scope of the claims).

The development shallowly embeds the relevant parts of host.py:

* byte-level wire framing (send_single_chunk, host.py lines 35-69);
* the per-connection onboarding routine (handle_client, lines 72-116);
* the live broadcast fan-out (send_chunk_to_all_current, lines 176-208);
* the directory watcher / stability classifier (check_for_new_chunks,
  lines 269-360) and the monitoring loop (monitor_and_send, lines 247-266);
* an interleaving (trace) model of the monitor thread against one
  client-handler thread, for the ordering / late-join claims.

Machine integers are modelled as Nat/Int with explicit bounds where Python's
int.to_bytes would raise OverflowError.  The filesystem is modelled as an
immutable listing per poll cycle (filename, size) plus, for sends, an
Option byte-list per path (none = the file is absent).  Logging is
effect-free except for one real effect several log calls carry: the
f-strings of host.py lines 65, 68 and 195 evaluate conn.getpeername(),
which itself raises OSError for a dead peer; that effect is modelled
explicitly (send_single_chunk's peerKnown input and the SendOutcome type of
the broadcast pass).
-/

/-- Configuration constants of host.py (lines 11-13); CHUNK_PREF stands for
the source's CHUNK_PREFIX constant, under a shortened name. -/
def CHUNK_PREF : String := "chunk_"

def CHUNK_FORMAT : String := "mp4"

def CHUNK_DIR : String := "host_chunks"

/-- Big-endian fixed-width byte encoding, as Python's int.to_bytes(w, bigEnd)
for 0 <= n < 256 ^ w (callers guard the bound; Python raises OverflowError
outside it). -/
def toBytesBE (w : Nat) (n : Nat) : List Nat :=
  match w with
  | 0 => []
  | w' + 1 => toBytesBE w' (n / 256) ++ [n % 256]

/-- UTF-8 encoding of one character (the encoding Python's str.encode uses). -/
def utf8EncodeChar (c : Char) : List Nat :=
  let n := c.toNat
  if n < 0x80 then [n]
  else if n < 0x800 then
    [0xC0 + n / 64, 0x80 + n % 64]
  else if n < 0x10000 then
    [0xE0 + n / 4096, 0x80 + (n / 64) % 64, 0x80 + n % 64]
  else
    [0xF0 + n / 262144, 0x80 + (n / 4096) % 64, 0x80 + (n / 64) % 64, 0x80 + n % 64]

/-- UTF-8 byte sequence of a string, as Python's str.encode with no arguments. -/
def utf8Bytes (s : String) : List Nat :=
  s.data.flatMap utf8EncodeChar

/-- The wire frame exactly as §6 of the spec words it: the filename length
field N is the number of UTF-8 bytes of the filename, and exactly N filename
bytes follow it.  (Definition follows the spec, for refinement comparison
with the frame the code builds.) -/
def wireFrame_spec (idx : Nat) (filename : String) (payload : List Nat) : List Nat :=
  toBytesBE 4 idx ++ toBytesBE 4 (utf8Bytes filename).length ++ utf8Bytes filename ++
    toBytesBE 8 payload.length ++ payload

/-- The frame host.py actually builds (lines 51-56): the length field is
Python's len(filename), i.e. the number of characters of the filename, while
the filename field is its UTF-8 byte encoding.  The two frame notions agree
exactly when the filename is pure ASCII. -/
def wireFrame_code (idx : Nat) (filename : String) (payload : List Nat) : List Nat :=
  toBytesBE 4 idx ++ toBytesBE 4 filename.length ++ utf8Bytes filename ++
    toBytesBE 8 payload.length ++ payload

/-- send_single_chunk (host.py lines 35-69), as a pure function.

Inputs: connOk models whether the peer socket accepts the blocking sendall
(false = ConnectionResetError / BrokenPipeError / socket.timeout raised at
line 57); peerKnown models whether conn.getpeername() still returns a peer
address — the except arms at lines 64-66 and 67-69 both evaluate
conn.getpeername() while building their log message, and for a dead peer
that call itself raises OSError, which no arm of this try catches, so the
function raises instead of returning False; file is the content of
chunk_path on disk at call time (none = the file is absent, covering the
os.path.exists check of line 37 and the FileNotFoundError handler of
line 61 — both log without touching the socket, so they return False
normally); chunk_index is the Python int parsed from the filename (negative
values make int.to_bytes raise OverflowError into the generic handler of
line 67, whose log message again evaluates conn.getpeername()).

Output: some (return value, bytes written to the socket) for a normal
return; none when the function itself raises (getpeername failing inside an
except arm).  On any failure path nothing is written.  Note the code
returns True for a zero-length file without writing anything
(lines 44-46). -/
def send_single_chunk (connOk peerKnown : Bool) (file : Option (List Nat))
    (filename : String) (chunk_index : Int) : Option (Bool × List Nat) :=
  match file with
  | none => some (false, [])
  | some chunk_data =>
    if chunk_data.length = 0 then
      some (true, [])
    else if 0 ≤ chunk_index ∧ chunk_index < 2 ^ 32 ∧ filename.length < 2 ^ 32 ∧
        chunk_data.length < 2 ^ 64 then
      if connOk then
        let header := toBytesBE 4 chunk_index.toNat ++ toBytesBE 4 filename.length ++
          utf8Bytes filename ++ toBytesBE 8 chunk_data.length
        some (true, header ++ chunk_data)
      else if peerKnown then some (false, []) else none
    else if peerKnown then some (false, []) else none

/-- Whether one send attempt counts as a success at its call sites: a True
return.  A False return and a raise are both failures — in handle_client a
False return breaks at line 90 and a raise lands in the except arm of
lines 95-98, which also sets client_still_connected to False and breaks. -/
def sendSucceeded (r : Option (Bool × List Nat)) : Bool :=
  match r with
  | some (true, _) => true
  | _ => false

/-!
## Interleaving model: monitor thread vs. one client-handler thread

host.py runs one monitor/broadcaster thread (monitor_and_send →
check_for_new_chunks → send_chunk_to_all_current) and one handler thread per
accepted connection (handle_client).  They share available_chunk_paths
(guarded by available_paths_lock) and clients (guarded by clients_lock).
For the ordering and late-join claims we model the interleavings of the
monitor thread with a single handler thread, at segment-index granularity,
on the success path (every send is delivered; byte-level behaviour and the
failure paths are covered by the send_single_chunk and broadcast-pass
theorems).

The monitor thread finalizes one segment in two separate steps — the store
append of lines 342-344 (under available_paths_lock) and the
send_chunk_to_all_current call of line 347 — with no lock spanning both, so
the handler thread can snapshot, replay and register between them.  The
model therefore has two monitor events:

* append — append the next segment index to the store (lines 342-344);
* broadcast — one send_chunk_to_all_current pass for the oldest segment
  whose pass has not run yet, delivering it to the connections registered
  in clients at that moment (line 347).  The monitor broadcasts in append
  order (its per-file loop appends segment i and broadcasts it before
  touching segment i+1), which the model captures with the counter sent:
  a broadcast event broadcasts segment index sent when sent < nextIdx and
  is inert otherwise (the program never runs a pass without a preceding
  append).  The pass is one atomic event here: the real pass snapshots
  clients at its start, so a client registering mid-pass misses it, which
  is the same outcome as ordering its register event after the broadcast.

The handler events:

* snapshot — the handler copies available_chunk_paths under the lock
  (lines 76-82);
* replay — the handler sends the whole copied backlog to its connection
  (lines 86-98, all sends succeeding); no broadcast writes to this socket
  before registration, so the replay is one event;
* register — the handler appends its connection to clients (lines 106-108).

The store holds segment indices; the watcher assigns them consecutively
from 0 (ffmpeg's chunk_%03d naming, emitted in ascending parsed order).
received is the sequence of segment indices delivered to the one modelled
client, in order (backlog frames are written only by the handler thread
before register, live frames only by the monitor thread after register, so
the socket sees them in exactly this order).
-/

structure TraceState where
  store : List Nat
  nextIdx : Nat
  sent : Nat
  snap : Option (List Nat)
  registered : Bool
  received : List Nat
  deriving Repr, DecidableEq

inductive Ev
  | append
  | broadcast
  | snapshot
  | replay
  | register
  deriving Repr, DecidableEq

def stepEv (s : TraceState) : Ev → TraceState
  | .append =>
      { s with store := s.store ++ [s.nextIdx], nextIdx := s.nextIdx + 1 }
  | .broadcast =>
      if s.sent < s.nextIdx then
        { s with sent := s.sent + 1,
                 received := if s.registered then s.received ++ [s.sent] else s.received }
      else s
  | .snapshot => { s with snap := some s.store }
  | .replay =>
      match s.snap with
      | some backlog => { s with received := s.received ++ backlog }
      | none => s
  | .register => { s with registered := true }

def initTrace : TraceState :=
  { store := [], nextIdx := 0, sent := 0, snap := none, registered := false,
    received := [] }

def runTrace (evs : List Ev) : TraceState :=
  evs.foldl stepEv initTrace

/-- j uninterrupted finalization rounds of the monitor thread, each the
append of one segment immediately followed by its broadcast pass (one
iteration of the loop at host.py lines 335-349 with no handler step in
between). -/
def monCycles (j : Nat) : List Ev :=
  (List.replicate j [Ev.append, Ev.broadcast]).flatten

/-!
## Filename-index parsing and the connection registry operations

Filenames and chunk paths.  host.py parses the index of a chunk from its
filename by stripping CHUNK_PREFIX and "." + CHUNK_FORMAT via str.replace
(which replaces every occurrence) and applying Python's int().  int()
accepts surrounding whitespace, an optional sign, and single underscores
between ASCII digits; non-ASCII decimal digits (also accepted by Python)
are not modelled, no claim depends on them.
-/

def pyStrip (cs : List Char) : List Char :=
  ((cs.dropWhile Char.isWhitespace).reverse.dropWhile Char.isWhitespace).reverse

def digitVal (c : Char) : Nat := c.toNat - 48

def pyDigitsGo (acc : Nat) : List Char → Option Nat
  | [] => some acc
  | '_' :: c :: rest =>
    if c.isDigit then pyDigitsGo (10 * acc + digitVal c) rest else none
  | c :: rest =>
    if c.isDigit then pyDigitsGo (10 * acc + digitVal c) rest else none

def pyDigits : List Char → Option Nat
  | [] => none
  | c :: rest => if c.isDigit then pyDigitsGo (digitVal c) rest else none

/-- Python's int() applied to a string: stripped of surrounding whitespace,
an optional sign, then a digit run with single underscores allowed between
digits; none models the ValueError raise. -/
def pyIntOfString (s : String) : Option Int :=
  match pyStrip s.data with
  | '-' :: rest => (pyDigits rest).map (fun n => -(n : Int))
  | '+' :: rest => (pyDigits rest).map (fun n => (n : Int))
  | cs => (pyDigits cs).map (fun n => (n : Int))

/-- Python's str.replace: replace every non-overlapping occurrence of pat,
scanning left to right.  fuel-indexed structural recursion (fuel bounds the
number of consumed characters; each step consumes at least one). -/
def replaceAllGo (pat repl : List Char) : Nat → List Char → List Char
  | 0, l => l
  | _ + 1, [] => []
  | fuel + 1, c :: rest =>
    if pat.isPrefixOf (c :: rest) ∧ pat.length > 0 then
      repl ++ replaceAllGo pat repl fuel ((c :: rest).drop pat.length)
    else c :: replaceAllGo pat repl fuel rest

def replaceAll (pat repl : String) (s : String) : String :=
  ⟨replaceAllGo pat.data repl.data (s.data.length + 1) s.data⟩

/-- int(filename.replace(CHUNK_PREFIX, "").replace("." + CHUNK_FORMAT, "")),
the index-parsing expression of host.py lines 81, 89, 322, 333, 337.
Note str.replace replaces every occurrence, not only an affix. -/
def parseIdx (f : String) : Option Int :=
  pyIntOfString (replaceAll ("." ++ CHUNK_FORMAT) "" (replaceAll CHUNK_PREF "" f))

/-- os.path.basename for the forward-slash paths the host constructs:
everything after the last slash. -/
def basename (p : String) : String :=
  ⟨p.data.foldl (fun acc c => if c = '/' then [] else acc ++ [c]) []⟩

def sortKeyOfPath (p : String) : Int := (parseIdx (basename p)).getD 0

/-- Stable insertion of x after every element of no greater key: the
building block of the stable ascending sort below. -/
def insertByKey (key : String → Int) (x : String) : List String → List String
  | [] => [x]
  | y :: ys => if key y ≤ key x then y :: insertByKey key x ys else x :: y :: ys

/-- The backlog sort of handle_client (lines 79-82): Python's sorted with
key=int(...) — a stable ascending sort by parsed index, modelled as stable
insertion sort (extensionally the same function; only evaluated on paths
whose index parses — otherwise sorted() raises and the onboarding model
below returns none before sorting). -/
def sortPaths (paths : List String) : List String :=
  paths.foldl (fun acc x => insertByKey sortKeyOfPath x acc) []

/-- The backlog send loop of handle_client (lines 85-98).  Returns
(client_still_connected, the paths for which send_single_chunk was invoked,
in order).  A path whose index fails to parse is skipped by the
except-ValueError arm of line 93 without touching the socket; a failed send
sets client_still_connected to False and breaks out of the loop — sendOk p
is false both when send_single_chunk returns False (line 90) and when it
raises, since the raise lands in the except arm of lines 95-98, which sets
client_still_connected to False and breaks just the same. -/
def onboardLoop (sendOk : String → Bool) : List String → Bool × List String
  | [] => (true, [])
  | p :: rest =>
    match parseIdx (basename p) with
    | none => onboardLoop sendOk rest
    | some _ =>
      if sendOk p then
        ((onboardLoop sendOk rest).1, p :: (onboardLoop sendOk rest).2)
      else (false, [p])

structure OnboardResult where
  attempted : List String
  registered : Bool
  closed : Bool
  clientsAfter : List Nat
  deriving Repr, DecidableEq

/-- The onboarding phase of handle_client (lines 72-116): sort the copied
snapshot of available_chunk_paths, replay it, and on success append the
connection to clients (line 108); on failure close the socket (line 114)
without registering.  none models the uncaught ValueError Python's sorted()
raises when some path's index does not parse (the handler thread dies;
unreachable for watcher-produced paths).  Connections are modelled as
naturals (opaque socket identities). -/
def handle_client_onboard (sendOk : String → Bool) (snapshot : List String)
    (clients : List Nat) (conn : Nat) : Option OnboardResult :=
  if snapshot.all (fun p => (parseIdx (basename p)).isSome) then
    let r := onboardLoop sendOk (sortPaths snapshot)
    some (if r.1 then ⟨r.2, true, false, clients ++ [conn]⟩
          else ⟨r.2, false, true, clients⟩)
  else none

/-- The three ways one send attempt inside send_chunk_to_all_current can
end for a connection: ok — send_single_chunk returned True; fail — it
returned False and the logging of line 195 retrieved the peer address, so
the connection is collected for eviction; abort — an exception escaped:
either send_single_chunk itself raised (conn.getpeername() in its except
arms, lines 65/68), or it returned False and conn.getpeername() in the log
call of line 195 raised.  Nothing in send_chunk_to_all_current catches an
exception, so an abort ends the whole pass. -/
inductive SendOutcome
  | ok
  | fail
  | abort
  deriving Repr, DecidableEq

/-- The outcome of one broadcast send to a connection, assembled from the
send_single_chunk result and from whether conn.getpeername() at line 195
succeeds when the send returned False. -/
def outcomeOfSend (r : Option (Bool × List Nat)) (peerKnownAtLog : Bool) :
    SendOutcome :=
  match r with
  | none => SendOutcome.abort
  | some (true, _) => SendOutcome.ok
  | some (false, _) =>
    if peerKnownAtLog then SendOutcome.fail else SendOutcome.abort

/-- The fan-out loop of send_chunk_to_all_current (lines 189-195):
connections are attempted in snapshot order; a fail is appended to
disconnected_clients; an abort ends the loop, and the whole function,
immediately.  Returns (some disconnected_clients, or none when the loop
aborted, paired with the connections actually attempted). -/
def broadcastLoop (outcome : Nat → SendOutcome) :
    List Nat → Option (List Nat) × List Nat
  | [] => (some [], [])
  | c :: rest =>
    match outcome c with
    | .ok =>
      ((broadcastLoop outcome rest).1, c :: (broadcastLoop outcome rest).2)
    | .fail =>
      (((broadcastLoop outcome rest).1).map (fun d => c :: d),
        c :: (broadcastLoop outcome rest).2)
    | .abort => (none, [c])

/-- send_chunk_to_all_current (host.py lines 176-208), one broadcast pass:
take the snapshot of clients (lines 180-186; empty list returns at once),
attempt a send to each connection of the snapshot, then remove each failed
connection from clients (list.remove removes the first occurrence, guarded
by membership) and close its socket, ignoring errors of an already-closed
socket (lines 199-208).  If any attempt aborts (see SendOutcome), the
exception propagates out of the function before the eviction phase runs:
the remaining connections are not attempted, no connection is removed or
closed, and the global clients list is left as it was.  Result:
(some (clients after the pass, connections evicted and closed), or none
when the pass aborted, paired with the connections attempted). -/
def send_chunk_to_all_current (outcome : Nat → SendOutcome) (clients : List Nat) :
    Option (List Nat × List Nat) × List Nat :=
  if clients.isEmpty then (some (clients, []), [])
  else
    let current_client_list := clients
    let r := broadcastLoop outcome current_client_list
    match r.1 with
    | some disconnected =>
      (some (disconnected.foldl (fun cs c => cs.erase c) clients, disconnected),
        r.2)
    | none => (none, r.2)

/-- An everywhere-absent disk, for the concrete C10 instance. -/
def diskEmpty : String → Option (List Nat) := fun _ => none

/-!
## The directory watcher (check_for_new_chunks, host.py lines 269-360)

The filesystem at one poll cycle is a listing: the (filename, size) pairs of
the files currently in CHUNK_DIR (os.listdir plus os.path.getsize; the model
keeps one consistent snapshot per cycle, so the FileNotFoundError race arms
of lines 293 and 309 are inert).  The watcher state consists of the four
structures the Python code threads through the loop: last_checked_files (the
module global of line 32), stable_files, processed_chunk_indices (the two
locals of monitor_and_send), and available_chunk_paths (the module global of
line 28).

The whole body of check_for_new_chunks sits in one try; the per-file sort
key int(...) of line 333 raises ValueError out of that loop for a stable
pattern-matching file whose middle is not an integer, landing in the generic
handler of line 359: in that case every stable_files mutation made before
the sort persists, while the processing loop, the broadcasts, and the
last_checked_files update of line 354 are all skipped.  The model returns
the resulting state plus the list of (filename, index) broadcasts of the
cycle.
-/

/-- filename.startswith(CHUNK_PREFIX) and filename.endswith("." + CHUNK_FORMAT)
(host.py lines 288, 305, 315). -/
def matchesPattern (f : String) : Bool :=
  CHUNK_PREF.data.isPrefixOf f.data &&
    ("." ++ CHUNK_FORMAT).data.reverse.isPrefixOf f.data.reverse

structure WatchState where
  last_checked_files : List String
  stable_files : List (String × Nat)
  processed_chunk_indices : List Int
  available_chunk_paths : List String
  deriving Repr, DecidableEq

def initWatch : WatchState := ⟨[], [], [], []⟩

def currentFiles (listing : List (String × Nat)) : List String := listing.map Prod.fst

def getsize (listing : List (String × Nat)) (f : String) : Option Nat :=
  listing.lookup f

/-- The stability loop of lines 279-297, iterating over a copy of
stable_files.items().  Returns (files_to_process, files_to_remove_from_stable,
the entries after the in-place value updates of line 292); the deletions of
lines 299-301 are applied afterwards. -/
def scanStable (listing : List (String × Nat)) :
    List (String × Nat) → List String × List String × List (String × Nat)
  | [] => ([], [], [])
  | (f, last_size) :: rest =>
    let r := scanStable listing rest
    match getsize listing f with
    | none => (r.1, f :: r.2.1, (f, last_size) :: r.2.2)
    | some current_size =>
      if current_size = last_size ∧ 0 < current_size then
        ((if matchesPattern f then f :: r.1 else r.1), f :: r.2.1,
          (f, last_size) :: r.2.2)
      else if current_size ≠ last_size then
        (r.1, r.2.1, (f, current_size) :: r.2.2)
      else
        (r.1, r.2.1, (f, last_size) :: r.2.2)

def baseFtp (listing : List (String × Nat)) (st : WatchState) : List String :=
  (scanStable listing st.stable_files).1

/-- stable_files after the update and deletion phases (lines 279-301). -/
def stableAfterScan (listing : List (String × Nat)) (st : WatchState) :
    List (String × Nat) :=
  let r := scanStable listing st.stable_files
  r.2.2.filter (fun e => !(r.2.1.contains e.1))

/-- current_files - last_checked_files (line 274); Python iterates this set
in unspecified order, the model fixes listing order (no claim depends on
the order). -/
def newlyDetected (listing : List (String × Nat)) (st : WatchState) : List String :=
  (currentFiles listing).filter (fun f => !(st.last_checked_files.contains f))

/-- Python dict assignment: replace the value of an existing key in place,
or append a new entry. -/
def dictInsert (k : String) (v : Nat) : List (String × Nat) → List (String × Nat)
  | [] => [(k, v)]
  | (k', v') :: rest =>
    if k' = k then (k, v) :: rest else (k', v') :: dictInsert k v rest

/-- The newly-detected registration loop of lines 304-310. -/
def stableWithNew (listing : List (String × Nat)) (st : WatchState) :
    List (String × Nat) :=
  (newlyDetected listing st).foldl
    (fun d f =>
      if matchesPattern f then
        match getsize listing f with
        | some sz => dictInsert f sz d
        | none => d
      else d)
    (stableAfterScan listing st)

/-- The re-listing of line 315: pattern-matching files of the directory. -/
def finalFiles (listing : List (String × Nat)) : List String :=
  (currentFiles listing).filter matchesPattern

/-- The final-flush classification loop of lines 318-329: every
pattern-matching file not already in files_to_process whose index parses,
is not yet processed, and is non-empty is appended unconditionally; an
empty or vanished one is instead dropped from stable_files. -/
def finalPass (listing : List (String × Nat)) (processed : List Int) :
    List String → List String × List (String × Nat) →
      List String × List (String × Nat)
  | [], acc => acc
  | f :: rest, (ftp, stable) =>
    if ftp.contains f then finalPass listing processed rest (ftp, stable)
    else
      match parseIdx f with
      | none => finalPass listing processed rest (ftp, stable)
      | some idx =>
        if processed.contains idx then finalPass listing processed rest (ftp, stable)
        else
          match getsize listing f with
          | some sz =>
            if 0 < sz then finalPass listing processed rest (ftp ++ [f], stable)
            else finalPass listing processed rest
              (ftp, stable.filter (fun e => !(e.1 = f)))
          | none => finalPass listing processed rest
              (ftp, stable.filter (fun e => !(e.1 = f)))

/-- files_to_process as it stands at the sort of line 333. -/
def eligibleFiles (listing : List (String × Nat)) (final_check : Bool)
    (st : WatchState) : List String :=
  if final_check then
    (finalPass listing st.processed_chunk_indices (finalFiles listing)
      (baseFtp listing st, stableWithNew listing st)).1
  else baseFtp listing st

/-- stable_files as it stands at the sort of line 333. -/
def stableOut (listing : List (String × Nat)) (final_check : Bool)
    (st : WatchState) : List (String × Nat) :=
  if final_check then
    (finalPass listing st.processed_chunk_indices (finalFiles listing)
      (baseFtp listing st, stableWithNew listing st)).2
  else stableWithNew listing st

/-- Whether the sort key int(...) of line 333 evaluates on every
files_to_process entry (otherwise ValueError aborts the cycle). -/
def sortKeyOk (ftp : List String) : Bool := ftp.all (fun f => (parseIdx f).isSome)

/-- files_to_process.sort(key=int(...)): stable ascending sort by parsed
index, modelled like the backlog sort. -/
def sortFiles (ftp : List String) : List String :=
  ftp.foldl (fun acc x => insertByKey (fun f => (parseIdx f).getD 0) x acc) []

/-- The processing loop of lines 335-351: for each stable file in sorted
order whose index is not yet processed, append its path to
available_chunk_paths (if absent), broadcast it (send_chunk_to_all_current,
line 347 — recorded here as the (filename, index) broadcast list), and mark
the index processed.  Returns (available', processed', broadcasts). -/
def processLoop : List String → List String → List Int →
    List String × List Int × List (String × Int)
  | [], avail, proc => (avail, proc, [])
  | f :: rest, avail, proc =>
    match parseIdx f with
    | none => processLoop rest avail proc
    | some idx =>
      if proc.contains idx then processLoop rest avail proc
      else
        let path := CHUNK_DIR ++ "/" ++ f
        let avail' := if avail.contains path then avail else avail ++ [path]
        let r := processLoop rest avail' (proc ++ [idx])
        (r.1, r.2.1, (f, idx) :: r.2.2)

/-- check_for_new_chunks (host.py lines 269-360), one poll cycle over one
filesystem snapshot.  Returns the new watcher state and the broadcasts of
the cycle.  When some files_to_process entry fails to parse, the sort of
line 333 raises: the stable_files mutations persist, nothing is processed,
and last_checked_files is not updated (the except arm of line 359). -/
def check_for_new_chunks (listing : List (String × Nat)) (final_check : Bool)
    (st : WatchState) : WatchState × List (String × Int) :=
  let ftp := eligibleFiles listing final_check st
  let stable' := stableOut listing final_check st
  if sortKeyOk ftp then
    let r := processLoop (sortFiles ftp) st.available_chunk_paths
      st.processed_chunk_indices
    ({ last_checked_files := currentFiles listing,
       stable_files := stable',
       processed_chunk_indices := r.2.1,
       available_chunk_paths := r.1 }, r.2.2)
  else
    ({ st with stable_files := stable' }, [])

/-- The final_check flags of the successive check_for_new_chunks calls of
monitor_and_send (lines 252-264), driven by the sequence of
ffmpeg_process.poll() outcomes (true = the encoder has exited): plain
cycles while the encoder runs, then exactly one final_check=True pass, then
the loop breaks. -/
def monitorCalls : List Bool → List Bool
  | [] => []
  | exited :: rest => if exited then [true] else false :: monitorCalls rest

/-- The two-cycle scenario refuting claim C8 as stated: the directory holds
chunk_000.mp4 (5 bytes) and the stray chunk_abc.mp4 (7 bytes), which matches
the prefix and extension but has no integer index. -/
def L8 : List (String × Nat) := [("chunk_000.mp4", 5), ("chunk_abc.mp4", 7)]

/-- The watcher state after the first poll cycle over L8: both files
registered in stable_files, nothing emitted yet. -/
def st8 : WatchState := (check_for_new_chunks L8 false initWatch).1

theorem length_toBytesBE (w n : Nat) : (toBytesBE w n).length = w := by
  induction w generalizing n with
  | zero => rfl
  | succ w ih => simp [toBytesBE, ih]

theorem utf8EncodeChar_ascii (c : Char) (hc : c.toNat < 128) :
    utf8EncodeChar c = [c.toNat] := by
  unfold utf8EncodeChar
  simp only []
  rw [if_pos hc]

theorem flatMap_utf8_length_of_ascii (cs : List Char)
    (h : ∀ c ∈ cs, c.toNat < 128) :
    (cs.flatMap utf8EncodeChar).length = cs.length := by
  induction cs with
  | nil => rfl
  | cons c cs ih =>
    have hc : c.toNat < 128 := h c (by simp)
    have ih' := ih (fun x hx => h x (by simp [hx]))
    simp [utf8EncodeChar_ascii c hc, ih']

theorem utf8Bytes_length_of_ascii (s : String)
    (h : ∀ c ∈ s.data, c.toNat < 128) : (utf8Bytes s).length = s.length := by
  unfold utf8Bytes
  rw [String.length]
  exact flatMap_utf8_length_of_ascii s.data h

/-- Claim C3, as stated: a zero-byte segment file yields a transmitted frame
consisting of the full header with L = 0 and no payload.  Refuted: host.py
lines 44-46 return True for an empty file without writing a single byte, so
the result is a success carrying no bytes at all, not the header-only frame
the claim predicts. -/
theorem C3_zero_length_counterexample :
    send_single_chunk true true (some []) "chunk_000.mp4" 0 = some (true, []) ∧
    send_single_chunk true true (some []) "chunk_000.mp4" 0 ≠
      some (true, wireFrame_spec 0 "chunk_000.mp4" []) := by
  refine ⟨rfl, ?_⟩
  decide

/-- Claim C3, amended as the code forces: for a segment file of 0 bytes,
send_single_chunk transmits no bytes at all (no frame, not a header-only
frame) and reports the send as successful, whatever the state of the
connection or peer; a non-empty readable segment sent over a healthy
connection does transmit a non-empty byte sequence. -/
theorem C3_zero_length_amended :
    (∀ (connOk peerKnown : Bool) (filename : String) (idx : Int),
      send_single_chunk connOk peerKnown (some []) filename idx = some (true, [])) ∧
    (∀ (data : List Nat) (filename : String) (idx : Int),
      data ≠ [] → 0 ≤ idx → idx < 2 ^ 32 → filename.length < 2 ^ 32 →
      data.length < 2 ^ 64 →
      ∃ bytes, send_single_chunk true true (some data) filename idx =
        some (true, bytes) ∧ bytes ≠ []) := by
  constructor
  · intro connOk peerKnown filename idx
    simp [send_single_chunk]
  · intro data filename idx hne h0 h32 hf h64
    have hlen : data.length ≠ 0 := by simpa using hne
    simp only [send_single_chunk, if_neg hlen]
    rw [if_pos ⟨h0, h32, hf, h64⟩, if_pos trivial]
    refine ⟨_, rfl, ?_⟩
    intro hcontra
    have h4 : (toBytesBE 4 idx.toNat).length = 4 := length_toBytesBE ..
    have := congrArg List.length hcontra
    simp [h4] at this

/-- Witness for the amended C3 at concrete inputs. -/
theorem C3_zero_length_amended_witness :
    send_single_chunk true true (some []) "chunk_007.mp4" 7 = some (true, []) ∧
    ∃ bytes, send_single_chunk true true (some [1, 2, 3]) "chunk_007.mp4" 7 =
      some (true, bytes) ∧ bytes ≠ [] :=
  ⟨C3_zero_length_amended.1 true true "chunk_007.mp4" 7,
   C3_zero_length_amended.2 [1, 2, 3] "chunk_007.mp4" 7 (by decide) (by decide)
     (by decide) (by decide) (by decide)⟩

/-- Claim C4, as stated: the bytes written are the 4-byte big-endian index,
the 4-byte big-endian filename length N, the N UTF-8 filename bytes, the
8-byte payload length, and the payload.  Refuted: the length field host.py
line 52 writes is len(filename), the number of characters, while line 53
appends the UTF-8 encoding; for a non-ASCII filename the declared N is
smaller than the number of filename bytes actually written, so the frame is
not of the claimed shape.  (Non-ASCII names of the watched pattern are
reachable: Python's int() accepts non-ASCII decimal digits, so a file such
as this one parses as a valid chunk index.) -/
theorem C4_frame_bytes_counterexample :
    (∃ bytes, send_single_chunk true true (some [1, 2, 3]) "chunk_é.mp4" 7 =
      some (true, bytes)) ∧
    send_single_chunk true true (some [1, 2, 3]) "chunk_é.mp4" 7 ≠
      some (true, wireFrame_spec 7 "chunk_é.mp4" [1, 2, 3]) := by
  refine ⟨⟨_, rfl⟩, ?_⟩
  decide

/-- Claim C4, amended as the code forces: the bytes written are exactly the
4-byte big-endian index, a 4-byte big-endian field holding the number of
characters of the filename (not its UTF-8 byte count), the UTF-8 filename
bytes, the 8-byte big-endian payload length, and the payload, with no
delimiter; the character count equals the UTF-8 byte count — recovering the
frame exactly as the claim stated it — whenever the filename is ASCII. -/
theorem C4_frame_bytes_amended (idx : Nat) (filename : String) (data : List Nat)
    (hne : data ≠ []) (hidx : idx < 2 ^ 32) (hf : filename.length < 2 ^ 32)
    (hd : data.length < 2 ^ 64) :
    send_single_chunk true true (some data) filename idx =
      some (true, wireFrame_code idx filename data) ∧
    ((∀ c ∈ filename.data, c.toNat < 128) →
      wireFrame_code idx filename data = wireFrame_spec idx filename data) := by
  constructor
  · have hlen : data.length ≠ 0 := by simpa using hne
    have h0 : (0 : Int) ≤ (idx : Int) := by positivity
    have h32 : (idx : Int) < 2 ^ 32 := by exact_mod_cast hidx
    simp only [send_single_chunk, if_neg hlen]
    rw [if_pos ⟨h0, h32, hf, hd⟩, if_pos trivial]
    simp [wireFrame_code]
  · intro hascii
    unfold wireFrame_code wireFrame_spec
    rw [utf8Bytes_length_of_ascii filename hascii]

/-- Witness for the amended C4 at concrete inputs. -/
theorem C4_frame_bytes_amended_witness :
    send_single_chunk true true (some [9]) "chunk_001.mp4" 1 =
      some (true, wireFrame_code 1 "chunk_001.mp4" [9]) ∧
    wireFrame_code 1 "chunk_001.mp4" [9] = wireFrame_spec 1 "chunk_001.mp4" [9] := by
  have h := C4_frame_bytes_amended 1 "chunk_001.mp4" [9] (by decide) (by decide)
    (by decide) (by decide)
  exact ⟨h.1, h.2 (by decide)⟩

theorem monitor_run : ∀ (evs : List Ev),
    (∀ e ∈ evs, e = Ev.append ∨ e = Ev.broadcast) →
    ∀ s : TraceState, s.store = List.range s.nextIdx → s.sent ≤ s.nextIdx →
      (evs.foldl stepEv s).store = List.range (evs.foldl stepEv s).nextIdx ∧
      (evs.foldl stepEv s).nextIdx = s.nextIdx + evs.count Ev.append ∧
      s.sent ≤ (evs.foldl stepEv s).sent ∧
      (evs.foldl stepEv s).sent ≤ (evs.foldl stepEv s).nextIdx ∧
      (evs.foldl stepEv s).snap = s.snap ∧
      (evs.foldl stepEv s).registered = s.registered ∧
      (evs.foldl stepEv s).received = s.received ++
        (if s.registered = true then
          List.range' s.sent ((evs.foldl stepEv s).sent - s.sent) else []) := by
  intro evs
  induction evs with
  | nil =>
    intro _ s hstore hsent
    refine ⟨by simpa using hstore, by simp, Nat.le_refl _, by simpa using hsent,
      rfl, rfl, by simp⟩
  | cons e rest ih =>
    intro hmon s hstore hsent
    have hrest : ∀ x ∈ rest, x = Ev.append ∨ x = Ev.broadcast :=
      fun x hx => hmon x (List.mem_cons_of_mem _ hx)
    rw [List.foldl_cons]
    rcases hmon e (by simp) with rfl | rfl
    · have hs1store : (stepEv s Ev.append).store =
          List.range (stepEv s Ev.append).nextIdx := by
        show s.store ++ [s.nextIdx] = List.range (s.nextIdx + 1)
        rw [hstore]
        exact (List.range_succ s.nextIdx).symm
      have hs1sent : (stepEv s Ev.append).sent ≤ (stepEv s Ev.append).nextIdx :=
        Nat.le_succ_of_le hsent
      obtain ⟨h1, h2, h3, h4, h5, h6, h7⟩ := ih hrest (stepEv s Ev.append) hs1store hs1sent
      refine ⟨h1, ?_, h3, h4, h5, h6, h7⟩
      rw [h2]
      show s.nextIdx + 1 + rest.count Ev.append = _
      rw [List.count_cons_self]
      omega
    · by_cases hlt : s.sent < s.nextIdx
      · have hstep : stepEv s Ev.broadcast =
            { s with sent := s.sent + 1,
                     received := if s.registered = true then s.received ++ [s.sent]
                       else s.received } := by
          simp only [stepEv]
          rw [if_pos hlt]
        rw [hstep]
        set s1 : TraceState :=
          { s with sent := s.sent + 1,
                   received := if s.registered = true then s.received ++ [s.sent]
                     else s.received } with hs1def
        have hs1store : s1.store = List.range s1.nextIdx := hstore
        have hs1sent : s1.sent ≤ s1.nextIdx := hlt
        obtain ⟨h1, h2, h3, h4, h5, h6, h7⟩ := ih hrest s1 hs1store hs1sent
        refine ⟨h1, ?_, ?_, h4, h5, h6, ?_⟩
        · rw [h2]
          show s.nextIdx + rest.count Ev.append = _
          rw [List.count_cons_of_ne (by decide)]
        · have : s1.sent = s.sent + 1 := rfl
          omega
        · rw [h7]
          have hsent1 : s1.sent = s.sent + 1 := rfl
          cases hreg : s.registered with
          | false =>
            have hrecv1 : s1.received = s.received := by
              rw [hs1def]
              simp [hreg]
            rw [hrecv1]
            simp
          | true =>
            have hrecv1 : s1.received = s.received ++ [s.sent] := by
              rw [hs1def]
              simp [hreg]
            rw [hrecv1]
            simp only [if_pos rfl]
            have hT : s.sent + 1 ≤ (rest.foldl stepEv s1).sent := hsent1 ▸ h3
            have harith : (rest.foldl stepEv s1).sent - s.sent =
                ((rest.foldl stepEv s1).sent - (s.sent + 1)) + 1 := by omega
            rw [harith, List.range'_succ]
            simp
      · have hstep : stepEv s Ev.broadcast = s := by
          simp only [stepEv]
          rw [if_neg hlt]
        rw [hstep]
        obtain ⟨h1, h2, h3, h4, h5, h6, h7⟩ := ih hrest s hstore hsent
        refine ⟨h1, ?_, h3, h4, h5, h6, h7⟩
        rw [h2, List.count_cons_of_ne (by decide)]

theorem run_cycles : ∀ (j : Nat) (s : TraceState),
    s.store = List.range s.nextIdx → s.sent = s.nextIdx →
      ((monCycles j).foldl stepEv s).store = List.range (s.nextIdx + j) ∧
      ((monCycles j).foldl stepEv s).nextIdx = s.nextIdx + j ∧
      ((monCycles j).foldl stepEv s).sent = s.nextIdx + j ∧
      ((monCycles j).foldl stepEv s).snap = s.snap ∧
      ((monCycles j).foldl stepEv s).registered = s.registered ∧
      ((monCycles j).foldl stepEv s).received = s.received ++
        (if s.registered = true then List.range' s.nextIdx j else []) := by
  intro j
  induction j with
  | zero =>
    intro s hstore hsync
    refine ⟨by simpa [monCycles] using hstore, by simp [monCycles],
      by simpa [monCycles] using hsync, by simp [monCycles],
      by simp [monCycles], by simp [monCycles]⟩
  | succ j ih =>
    intro s hstore hsync
    have hmc : monCycles (j + 1) = Ev.append :: Ev.broadcast :: monCycles j := by
      simp [monCycles, List.replicate_succ]
    rw [hmc, List.foldl_cons, List.foldl_cons]
    have hlt : s.sent < s.nextIdx + 1 := by omega
    have hstep2 : stepEv (stepEv s Ev.append) Ev.broadcast =
        { s with store := s.store ++ [s.nextIdx], nextIdx := s.nextIdx + 1,
                 sent := s.sent + 1,
                 received := if s.registered = true then s.received ++ [s.sent]
                   else s.received } := by
      simp only [stepEv]
      rw [if_pos hlt]
    rw [hstep2]
    set s2 : TraceState :=
      { s with store := s.store ++ [s.nextIdx], nextIdx := s.nextIdx + 1,
               sent := s.sent + 1,
               received := if s.registered = true then s.received ++ [s.sent]
                 else s.received } with hs2def
    have hs2store : s2.store = List.range s2.nextIdx := by
      show s.store ++ [s.nextIdx] = List.range (s.nextIdx + 1)
      rw [hstore]
      exact (List.range_succ s.nextIdx).symm
    have hs2sync : s2.sent = s2.nextIdx := by
      show s.sent + 1 = s.nextIdx + 1
      omega
    obtain ⟨h1, h2, h3, h4, h5, h6⟩ := ih s2 hs2store hs2sync
    have hn2 : s2.nextIdx = s.nextIdx + 1 := rfl
    refine ⟨?_, ?_, ?_, h4, h5, ?_⟩
    · rw [h1, hn2]
      have : s.nextIdx + 1 + j = s.nextIdx + (j + 1) := by omega
      rw [this]
    · rw [h2, hn2]
      omega
    · rw [h3, hn2]
      omega
    · rw [h6]
      cases hreg : s.registered with
      | false =>
        have hrecv2 : s2.received = s.received := by
          rw [hs2def]
          simp [hreg]
        rw [hrecv2]
        simp
      | true =>
        have hrecv2 : s2.received = s.received ++ [s.sent] := by
          rw [hs2def]
          simp [hreg]
        have hn2' : s2.nextIdx = s.nextIdx + 1 := rfl
        rw [hrecv2]
        rw [hsync, List.range'_succ]
        simp

/-- Claim C1 (late join completeness): for a connection whose backlog
snapshot is taken when exactly the segments 0..k have been appended to the
store, the onboarding replay delivers exactly the k+1 frames of indices
0..k, in strictly ascending order, and every frame of index greater than k
the connection ever receives sits after those k+1 backlog frames — for any
interleaving of the monitor thread's append and broadcast steps around the
handler's snapshot, replay and registration (pre, mid1, mid2, post are
arbitrary monitor-event sequences).  Late broadcasts of pre-snapshot
segments may duplicate indices at or below k after the backlog (see C2);
they never produce an index above k ahead of its turn. -/
theorem C1_late_join_completeness (k : Nat) (pre mid1 mid2 post : List Ev)
    (hpre : ∀ e ∈ pre, e = Ev.append ∨ e = Ev.broadcast)
    (hmid1 : ∀ e ∈ mid1, e = Ev.append ∨ e = Ev.broadcast)
    (hmid2 : ∀ e ∈ mid2, e = Ev.append ∨ e = Ev.broadcast)
    (hpost : ∀ e ∈ post, e = Ev.append ∨ e = Ev.broadcast)
    (hk : pre.count Ev.append = k + 1) :
    (runTrace (pre ++ Ev.snapshot :: (mid1 ++ Ev.replay ::
      (mid2 ++ Ev.register :: post)))).received.take (k + 1) = List.range (k + 1) ∧
    ∀ n i, (runTrace (pre ++ Ev.snapshot :: (mid1 ++ Ev.replay ::
      (mid2 ++ Ev.register :: post)))).received[n]? = some i → k < i →
      k + 1 ≤ n := by
  have hsplit : runTrace (pre ++ Ev.snapshot :: (mid1 ++ Ev.replay ::
      (mid2 ++ Ev.register :: post))) =
      post.foldl stepEv (stepEv (mid2.foldl stepEv (stepEv (mid1.foldl stepEv
        (stepEv (pre.foldl stepEv initTrace) Ev.snapshot)) Ev.replay))
        Ev.register) := by
    simp [runTrace, List.foldl_append, List.foldl_cons]
  obtain ⟨a1, a2, a3, a4, a5, a6, a7⟩ :=
    monitor_run pre hpre initTrace rfl (by simp [initTrace])
  set s1 := pre.foldl stepEv initTrace with hs1
  have hn1 : s1.nextIdx = k + 1 := by
    rw [a2]
    simp [initTrace, hk]
  have hreg1 : s1.registered = false := a6
  have hrecv1 : s1.received = [] := by
    rw [a7]
    simp [initTrace]
  set s2 := stepEv s1 Ev.snapshot with hs2
  have h2store : s2.store = s1.store := rfl
  have h2next : s2.nextIdx = s1.nextIdx := rfl
  have h2sent : s2.sent = s1.sent := rfl
  have h2snap : s2.snap = some s1.store := rfl
  have h2reg : s2.registered = s1.registered := rfl
  have h2recv : s2.received = s1.received := rfl
  obtain ⟨b1, b2, b3, b4, b5, b6, b7⟩ := monitor_run mid1 hmid1 s2
    (by rw [h2store, h2next]; exact a1) (by rw [h2sent, h2next]; exact a4)
  set s3 := mid1.foldl stepEv s2 with hs3
  have h3snap : s3.snap = some (List.range (k + 1)) := by
    rw [b5, h2snap, a1, hn1]
  have h3reg : s3.registered = false := by rw [b6, h2reg, hreg1]
  have h3recv : s3.received = [] := by
    rw [b7, h2recv, hrecv1, h2reg, hreg1]
    simp
  set s4 := stepEv s3 Ev.replay with hs4
  have h4 : s4 = { s3 with received := s3.received ++ List.range (k + 1) } := by
    rw [hs4]
    simp only [stepEv, h3snap]
  have h4store : s4.store = s3.store := by rw [h4]
  have h4next : s4.nextIdx = s3.nextIdx := by rw [h4]
  have h4sent : s4.sent = s3.sent := by rw [h4]
  have h4reg : s4.registered = s3.registered := by rw [h4]
  have h4recv : s4.received = List.range (k + 1) := by
    rw [h4]
    show s3.received ++ List.range (k + 1) = _
    rw [h3recv]
    simp
  obtain ⟨c1, c2, c3, c4, c5, c6, c7⟩ := monitor_run mid2 hmid2 s4
    (by rw [h4store, h4next]; exact b1) (by rw [h4sent, h4next]; exact b4)
  set s5 := mid2.foldl stepEv s4 with hs5
  have h5recv : s5.received = List.range (k + 1) := by
    rw [c7, h4recv, h4reg, h3reg]
    simp
  set s6 := stepEv s5 Ev.register with hs6
  have h6store : s6.store = s5.store := rfl
  have h6next : s6.nextIdx = s5.nextIdx := rfl
  have h6sent : s6.sent = s5.sent := rfl
  have h6reg : s6.registered = true := rfl
  have h6recv : s6.received = s5.received := rfl
  obtain ⟨d1, d2, d3, d4, d5, d6, d7⟩ := monitor_run post hpost s6
    (by rw [h6store, h6next]; exact c1) (by rw [h6sent, h6next]; exact c4)
  have hfinal : (post.foldl stepEv s6).received =
      List.range (k + 1) ++
        List.range' s6.sent ((post.foldl stepEv s6).sent - s6.sent) := by
    rw [d7, h6recv, h5recv, h6reg]
    simp
  rw [hsplit]
  constructor
  · rw [hfinal]
    exact List.take_left' (by simp)
  · intro n i hget hki
    rw [hfinal] at hget
    by_cases hn : n < k + 1
    · exfalso
      have hn' : n < (List.range (k + 1)).length := by simpa using hn
      rw [List.getElem?_append_left hn', List.getElem?_range hn] at hget
      injection hget with h
      omega
    · omega

/-- Claim C2, as stated: the per-connection index sequence is strictly
ascending with no gaps and no duplicates even when a segment is finalized
concurrently with the backlog replay.  Refuted twice.  Gap: the monitor
appends and broadcasts segment 1 between the handler's snapshot and its
registration, so segment 1 misses both the backlog (snapshotted earlier)
and the broadcast (the client is not registered yet); the client receives
0 then 2, and segment 1 — in the store — is never delivered.  Duplicate:
the monitor appends segment 0 before the snapshot but its broadcast pass
runs only after the handler registered, so the client receives 0 in the
backlog and then 0 again live. -/
theorem C2_ordering_counterexample :
    (runTrace [Ev.append, Ev.broadcast, Ev.snapshot, Ev.append, Ev.broadcast,
      Ev.replay, Ev.register, Ev.append, Ev.broadcast]).received = [0, 2] ∧
    1 ∈ (runTrace [Ev.append, Ev.broadcast, Ev.snapshot, Ev.append, Ev.broadcast,
      Ev.replay, Ev.register, Ev.append, Ev.broadcast]).store ∧
    1 ∉ (runTrace [Ev.append, Ev.broadcast, Ev.snapshot, Ev.append, Ev.broadcast,
      Ev.replay, Ev.register, Ev.append, Ev.broadcast]).received ∧
    (runTrace [Ev.append, Ev.snapshot, Ev.replay, Ev.register,
      Ev.broadcast]).received = [0, 0] := by
  refine ⟨rfl, by decide, by decide, rfl⟩

/-- Claim C2, amended as the two counterexample schedules force: the full
sequence of segment indices a client receives — backlog replay then live
broadcasts — is exactly 0, 1, ..., n+m-1 (strictly ascending, no gaps, no
duplicates) provided the replay window is clean on both sides: every
segment appended before the snapshot also had its broadcast pass completed
before the snapshot, and the monitor thread performs no append and no
broadcast between the snapshot and the registration.  The schedule below
says exactly that: n complete append-and-broadcast rounds, then snapshot,
replay, register back to back, then m complete rounds. -/
theorem C2_ordering_amended (n m : Nat) :
    (runTrace (monCycles n ++ Ev.snapshot :: Ev.replay :: Ev.register ::
      monCycles m)).received = List.range (n + m) ∧
    List.Pairwise (· < ·)
      (runTrace (monCycles n ++ Ev.snapshot :: Ev.replay :: Ev.register ::
        monCycles m)).received := by
  have hsplit : runTrace (monCycles n ++ Ev.snapshot :: Ev.replay ::
      Ev.register :: monCycles m) =
      (monCycles m).foldl stepEv (stepEv (stepEv (stepEv
        ((monCycles n).foldl stepEv initTrace) Ev.snapshot) Ev.replay)
        Ev.register) := by
    simp [runTrace, List.foldl_append, List.foldl_cons]
  obtain ⟨a1, a2, a3, a4, a5, a6⟩ := run_cycles n initTrace rfl rfl
  set s1 := (monCycles n).foldl stepEv initTrace with hs1
  have hstore1 : s1.store = List.range n := by
    rw [a1]
    simp [initTrace]
  have hnext1 : s1.nextIdx = n := by
    rw [a2]
    simp [initTrace]
  have hsent1 : s1.sent = n := by
    rw [a3]
    simp [initTrace]
  have hreg1 : s1.registered = false := a5
  have hrecv1 : s1.received = [] := by
    rw [a6]
    simp [initTrace]
  set s2 := stepEv s1 Ev.snapshot with hs2
  have h2snap : s2.snap = some s1.store := rfl
  set s3 := stepEv s2 Ev.replay with hs3
  have h3 : s3 = { s2 with received := s2.received ++ s1.store } := by
    rw [hs3]
    simp only [stepEv, h2snap]
  set s4 := stepEv s3 Ev.register with hs4
  have h4store : s4.store = s1.store := by rw [hs4, h3]; rfl
  have h4next : s4.nextIdx = s1.nextIdx := by rw [hs4, h3]; rfl
  have h4sent : s4.sent = s1.sent := by rw [hs4, h3]; rfl
  have h4reg : s4.registered = true := rfl
  have h4recv : s4.received = List.range n := by
    rw [hs4]
    show s3.received = List.range n
    rw [h3]
    show s2.received ++ s1.store = List.range n
    have : s2.received = s1.received := rfl
    rw [this, hrecv1, hstore1]
    simp
  obtain ⟨e1, e2, e3, e4, e5, e6⟩ := run_cycles m s4
    (by rw [h4store, h4next, hstore1, hnext1]) (by rw [h4sent, h4next, hsent1, hnext1])
  have hrecvF : ((monCycles m).foldl stepEv s4).received = List.range (n + m) := by
    rw [e6, h4recv, h4reg, h4next, hnext1]
    simp only [if_pos rfl]
    rw [List.range_eq_range', List.range_eq_range', Nat.add_comm n m]
    simpa using List.range'_append_1 0 n m
  constructor
  · rw [hsplit]
    exact hrecvF
  · rw [hsplit, hrecvF]
    exact List.pairwise_lt_range (n + m)

theorem diff_filter_not (p : Nat → Bool) (l : List Nat) (h : l.Nodup) :
    l.diff (l.filter (fun c => !(p c))) = l.filter p := by
  induction l with
  | nil => simp
  | cons a l ih =>
    have ha : a ∉ l := (List.nodup_cons.mp h).1
    have hl : l.Nodup := (List.nodup_cons.mp h).2
    cases hb : p a with
    | false =>
      have e1 : (a :: l).filter (fun c => !(p c)) = a :: l.filter (fun c => !(p c)) := by
        simp [List.filter_cons, hb]
      have e2 : (a :: l).filter p = l.filter p := by
        simp [List.filter_cons, hb]
      rw [e1, e2, List.diff_cons, List.erase_cons_head, ih hl]
    | true =>
      have e1 : (a :: l).filter (fun c => !(p c)) = l.filter (fun c => !(p c)) := by
        simp [List.filter_cons, hb]
      have e2 : (a :: l).filter p = a :: l.filter p := by
        simp [List.filter_cons, hb]
      have hfa : a ∉ l.filter (fun c => !(p c)) :=
        fun hmem => ha (List.mem_of_mem_filter hmem)
      rw [e1, e2, List.cons_diff_of_not_mem hfa, ih hl]

theorem broadcastLoop_no_abort (outcome : Nat → SendOutcome) (l : List Nat)
    (h : ∀ c ∈ l, outcome c ≠ SendOutcome.abort) :
    broadcastLoop outcome l =
      (some (l.filter (fun c => outcome c == SendOutcome.fail)), l) := by
  induction l with
  | nil => rfl
  | cons c rest ih =>
    have hrest := ih (fun d hd => h d (List.mem_cons_of_mem _ hd))
    have hc := h c (by simp)
    cases hout : outcome c with
    | ok =>
      simp only [broadcastLoop, hout]
      rw [hrest]
      simp [List.filter_cons, hout]
    | fail =>
      simp only [broadcastLoop, hout]
      rw [hrest]
      simp [List.filter_cons, hout]
    | abort => exact absurd hout hc

theorem send_all_spec (outcome : Nat → SendOutcome) (clients : List Nat)
    (hnd : clients.Nodup) (h : ∀ c ∈ clients, outcome c ≠ SendOutcome.abort) :
    send_chunk_to_all_current outcome clients =
      (some (clients.filter (fun c => outcome c == SendOutcome.ok),
        clients.filter (fun c => outcome c == SendOutcome.fail)), clients) := by
  by_cases hcl : clients.isEmpty
  · rw [List.isEmpty_iff] at hcl
    subst hcl
    rfl
  · simp only [send_chunk_to_all_current, if_neg hcl,
      broadcastLoop_no_abort outcome clients h]
    have hcong : clients.filter (fun c => outcome c == SendOutcome.fail) =
        clients.filter (fun c => !(outcome c == SendOutcome.ok)) := by
      refine List.filter_congr ?_
      intro c hcmem
      cases hout : outcome c with
      | ok => rfl
      | fail => rfl
      | abort => exact absurd hout (h c hcmem)
    have hfold : (clients.filter (fun c => !(outcome c == SendOutcome.ok))).foldl
        (fun cs c => cs.erase c) clients =
        clients.diff (clients.filter (fun c => !(outcome c == SendOutcome.ok))) := by
      rw [List.diff_eq_foldl]
    rw [hcong, hfold,
      diff_filter_not (fun c => outcome c == SendOutcome.ok) clients hnd]

/-- Claim C7 (broadcast fault isolation), refuted as stated: the claim says
every connection of the snapshot is attempted even when one send fails, and
exactly the failed ones are then evicted and closed.  That holds only when
the per-connection failure is a plain False return (the control run, second
conjunct).  When a connection's peer is forcibly closed, sendall raises,
and the except arm's log f-string (host.py lines 65 and 68) — like the
failure log of line 195 — calls conn.getpeername(), which itself raises
OSError on such a socket; that exception is uncaught in
send_chunk_to_all_current, so the pass aborts mid-loop: with clients
[1, 2, 3] and connection 2 dead, only [1, 2] are attempted, connection 3 is
skipped, and no eviction or close runs at all (first conjunct, outcome
none). -/
theorem C7_getpeername_aborts_broadcast :
    send_chunk_to_all_current
      (fun c => if c = 2 then SendOutcome.abort else SendOutcome.ok) [1, 2, 3] =
      (none, [1, 2]) ∧
    send_chunk_to_all_current
      (fun c => if c = 2 then SendOutcome.fail else SendOutcome.ok) [1, 2, 3] =
      (some ([1, 3], [2]), [1, 2, 3]) := by
  exact ⟨rfl, rfl⟩

theorem onboardLoop_all_ok (sendOk : String → Bool) (paths : List String)
    (hp : ∀ p ∈ paths, (parseIdx (basename p)).isSome = true)
    (hs : ∀ p ∈ paths, sendOk p = true) :
    onboardLoop sendOk paths = (true, paths) := by
  induction paths with
  | nil => rfl
  | cons p rest ih =>
    obtain ⟨i, hi⟩ := Option.isSome_iff_exists.mp (hp p (by simp))
    have hrest := ih (fun q hq => hp q (by simp [hq])) (fun q hq => hs q (by simp [hq]))
    simp [onboardLoop, hi, hs p (by simp), hrest]

theorem onboardLoop_first_fail (sendOk : String → Bool) (pre : List String)
    (q : String) (post : List String)
    (hppre : ∀ p ∈ pre, (parseIdx (basename p)).isSome = true)
    (hpq : (parseIdx (basename q)).isSome = true)
    (hs : ∀ p ∈ pre, sendOk p = true) (hq : sendOk q = false) :
    onboardLoop sendOk (pre ++ q :: post) = (false, pre ++ [q]) := by
  induction pre with
  | nil =>
    obtain ⟨i, hi⟩ := Option.isSome_iff_exists.mp hpq
    simp [onboardLoop, hi, hq]
  | cons p rest ih =>
    obtain ⟨i, hi⟩ := Option.isSome_iff_exists.mp (hppre p (by simp))
    have hrest := ih (fun r hr => hppre r (by simp [hr])) (fun r hr => hs r (by simp [hr]))
    simp [onboardLoop, hi, hs p (by simp), hrest]

theorem onboardLoop_fail_of_exists (sendOk : String → Bool) (paths : List String)
    (hp : ∀ p ∈ paths, (parseIdx (basename p)).isSome = true)
    (hex : ∃ p ∈ paths, sendOk p = false) :
    (onboardLoop sendOk paths).1 = false := by
  induction paths with
  | nil => simp at hex
  | cons p rest ih =>
    obtain ⟨i, hi⟩ := Option.isSome_iff_exists.mp (hp p (by simp))
    cases hb : sendOk p with
    | false => simp [onboardLoop, hi, hb]
    | true =>
      obtain ⟨r, hr, hrf⟩ := hex
      rcases List.mem_cons.mp hr with rfl | hr'
      · rw [hb] at hrf
        exact absurd hrf (by simp)
      · have := ih (fun s hs => hp s (by simp [hs])) ⟨r, hr', hrf⟩
        simp [onboardLoop, hi, hb, this]

theorem insertByKey_perm (key : String → Int) (x : String) (l : List String) :
    List.Perm (insertByKey key x l) (x :: l) := by
  induction l with
  | nil => exact List.Perm.refl _
  | cons y ys ih =>
    by_cases h : key y ≤ key x
    · simp only [insertByKey, if_pos h]
      exact (List.Perm.cons y ih).trans (List.Perm.swap ..)
    · simp only [insertByKey, if_neg h]
      exact List.Perm.refl _

theorem foldl_insertByKey_perm (key : String → Int) (l acc : List String) :
    List.Perm (l.foldl (fun a x => insertByKey key x a) acc) (acc ++ l) := by
  induction l generalizing acc with
  | nil => simp
  | cons x xs ih =>
    have h1 : (x :: xs).foldl (fun a x => insertByKey key x a) acc
        = xs.foldl (fun a x => insertByKey key x a) (insertByKey key x acc) := rfl
    rw [h1]
    refine (ih _).trans ?_
    refine ((insertByKey_perm key x acc).append_right xs).trans ?_
    rw [List.cons_append]
    exact List.perm_middle.symm

theorem sortPaths_perm (l : List String) : List.Perm (sortPaths l) l := by
  simpa using foldl_insertByKey_perm sortKeyOfPath l []

theorem mem_sortPaths {p : String} {l : List String} :
    p ∈ sortPaths l ↔ p ∈ l :=
  (sortPaths_perm l).mem_iff

/-- Claim C6 (onboarding registration discipline): with every snapshot path
index-parseable (the invariant the watcher maintains for
available_chunk_paths) and the connection new to the registry — if every
backlog send succeeds, the handler registers the connection exactly once,
without closing it, having attempted the whole sorted backlog; if some send
fails, the handler attempts exactly the sorted backlog up to and including
the first failing path, aborts the rest of the replay, closes the socket,
and leaves the registry without the connection. -/
theorem C6_onboarding_registration (sendOk : String → Bool) (snapshot : List String)
    (clients : List Nat) (conn : Nat)
    (hparse : ∀ p ∈ snapshot, (parseIdx (basename p)).isSome = true)
    (hnew : conn ∉ clients) :
    ((∀ p ∈ snapshot, sendOk p = true) →
      handle_client_onboard sendOk snapshot clients conn =
        some ⟨sortPaths snapshot, true, false, clients ++ [conn]⟩ ∧
      (clients ++ [conn]).count conn = 1) ∧
    (∀ pre q post, sortPaths snapshot = pre ++ q :: post →
      (∀ p ∈ pre, sendOk p = true) → sendOk q = false →
      handle_client_onboard sendOk snapshot clients conn =
        some ⟨pre ++ [q], false, true, clients⟩) := by
  have hall : snapshot.all (fun p => (parseIdx (basename p)).isSome) = true :=
    List.all_eq_true.mpr hparse
  have hmem : ∀ p : String, p ∈ sortPaths snapshot ↔ p ∈ snapshot := by
    intro p
    exact mem_sortPaths
  constructor
  · intro hs
    have hloop := onboardLoop_all_ok sendOk (sortPaths snapshot)
      (fun p hp => hparse p ((hmem p).mp hp))
      (fun p hp => hs p ((hmem p).mp hp))
    constructor
    · unfold handle_client_onboard
      rw [if_pos hall, hloop]
      rfl
    · rw [List.count_append, List.count_eq_zero_of_not_mem hnew]
      simp
  · intro pre q post hsplit hpre hq
    have hloop := onboardLoop_first_fail sendOk pre q post
      (fun p hp => hparse p ((hmem p).mp (hsplit ▸ List.mem_append_left _ hp)))
      (hparse q ((hmem q).mp (hsplit ▸ List.mem_append_right _ (by simp))))
      hpre hq
    unfold handle_client_onboard
    rw [if_pos hall, hsplit, hloop]
    rfl

/-- Witness for C6 at concrete inputs: a two-path backlog; in the
all-succeed case the connection is registered once, and with the second
(sorted) path failing the handler attempts both paths, closes, and does not
register. -/
theorem C6_onboarding_registration_witness :
    (handle_client_onboard (fun _ => true)
      ["host_chunks/chunk_001.mp4", "host_chunks/chunk_000.mp4"] [5] 9 =
      some ⟨["host_chunks/chunk_000.mp4", "host_chunks/chunk_001.mp4"], true, false,
        [5, 9]⟩ ∧
     ([5] ++ [9]).count 9 = 1) ∧
    handle_client_onboard (fun p => decide (p = "host_chunks/chunk_000.mp4"))
      ["host_chunks/chunk_001.mp4", "host_chunks/chunk_000.mp4"] [5] 9 =
      some ⟨["host_chunks/chunk_000.mp4", "host_chunks/chunk_001.mp4"], false, true,
        [5]⟩ := by
  have h1 := C6_onboarding_registration (fun _ => true)
    ["host_chunks/chunk_001.mp4", "host_chunks/chunk_000.mp4"] [5] 9
    (by decide) (by decide)
  have h2 := C6_onboarding_registration (fun p => decide (p = "host_chunks/chunk_000.mp4"))
    ["host_chunks/chunk_001.mp4", "host_chunks/chunk_000.mp4"] [5] 9
    (by decide) (by decide)
  refine ⟨?_, ?_⟩
  · have := h1.1 (fun p _ => rfl)
    refine ⟨?_, this.2⟩
    rw [this.1]
    rfl
  · have := h2.2 ["host_chunks/chunk_000.mp4"] "host_chunks/chunk_001.mp4" []
      (by rfl) (by decide) (by decide)
    rw [this]
    rfl

/-- Claim C10 (missing segment file treated as connection failure): if the
segment's file is absent when send_single_chunk runs, the function returns
failure even over a perfectly healthy connection (and writes nothing) — the
early None check of lines 38-40 means no exception and no getpeername call
is involved; consequently a broadcast pass for that segment marks every
snapshot connection disconnected, evicts all of them and closes them (the
registry is emptied); and a backlog replay hitting the missing file leaves
the new connection unregistered and closed, with the registry unchanged. -/
theorem C10_missing_file_failure :
    (∀ (connOk peerKnown : Bool) (filename : String) (idx : Int),
      send_single_chunk connOk peerKnown none filename idx = some (false, [])) ∧
    (∀ (alive : Nat → Bool) (filename : String) (idx : Int) (clients : List Nat),
      clients.Nodup →
      send_chunk_to_all_current
        (fun c => outcomeOfSend
          (send_single_chunk (alive c) true none filename idx) true) clients =
        (some ([], clients), clients)) ∧
    (∀ (disk : String → Option (List Nat)) (snapshot : List String)
        (clients : List Nat) (conn : Nat) (p0 : String),
      (∀ p ∈ snapshot, (parseIdx (basename p)).isSome = true) →
      p0 ∈ snapshot → disk p0 = none →
      ∃ att, handle_client_onboard
        (fun p => sendSucceeded (send_single_chunk true true (disk p) (basename p)
          ((parseIdx (basename p)).getD 0))) snapshot clients conn =
        some ⟨att, false, true, clients⟩) := by
  refine ⟨fun _ _ _ _ => rfl, ?_, ?_⟩
  · intro alive filename idx clients hnd
    have habort : ∀ c ∈ clients,
        outcomeOfSend (send_single_chunk (alive c) true none filename idx) true ≠
          SendOutcome.abort := by
      intro c _ hcontra
      exact SendOutcome.noConfusion hcontra
    rw [send_all_spec _ clients hnd habort]
    have h1 : clients.filter (fun c =>
        outcomeOfSend (send_single_chunk (alive c) true none filename idx) true ==
          SendOutcome.ok) = [] := by
      rw [List.filter_eq_nil_iff]
      intro c _ hcontra
      exact Bool.noConfusion hcontra
    have h2 : clients.filter (fun c =>
        outcomeOfSend (send_single_chunk (alive c) true none filename idx) true ==
          SendOutcome.fail) = clients := by
      rw [List.filter_eq_self]
      intro c _
      rfl
    rw [h1, h2]
  · intro disk snapshot clients conn p0 hparse hp0 hmiss
    have hall : snapshot.all (fun p => (parseIdx (basename p)).isSome) = true :=
      List.all_eq_true.mpr hparse
    have hfail : (onboardLoop
        (fun p => sendSucceeded (send_single_chunk true true (disk p) (basename p)
          ((parseIdx (basename p)).getD 0))) (sortPaths snapshot)).1 = false := by
      refine onboardLoop_fail_of_exists _ _
        (fun p hp => hparse p (mem_sortPaths.mp hp)) ⟨p0, mem_sortPaths.mpr hp0, ?_⟩
      rw [hmiss]
      rfl
    refine ⟨(onboardLoop (fun p => sendSucceeded (send_single_chunk true true (disk p)
      (basename p) ((parseIdx (basename p)).getD 0))) (sortPaths snapshot)).2, ?_⟩
    unfold handle_client_onboard
    rw [if_pos hall]
    simp only [hfail, Bool.false_eq_true, if_false]

/-- Witness for C10 at concrete inputs: the file of chunk 0 is absent; the
send fails over a healthy connection, a broadcast pass over clients [1, 2]
evicts and closes both, and an onboarding replay of the one-path backlog
leaves the registry [5] unchanged, the connection closed and unregistered. -/
theorem C10_missing_file_failure_witness :
    send_single_chunk true true none "chunk_000.mp4" 0 = some (false, []) ∧
    send_chunk_to_all_current
      (fun c => outcomeOfSend
        (send_single_chunk ((fun _ : Nat => true) c) true none "chunk_000.mp4" 0)
        true) [1, 2] = (some ([], [1, 2]), [1, 2]) ∧
    ∃ att, handle_client_onboard
      (fun p => sendSucceeded (send_single_chunk true true (diskEmpty p)
        (basename p) ((parseIdx (basename p)).getD 0)))
      ["host_chunks/chunk_000.mp4"] [5] 9 = some ⟨att, false, true, [5]⟩ := by
  have h := C10_missing_file_failure
  refine ⟨h.1 true true "chunk_000.mp4" 0,
    h.2.1 (fun _ => true) "chunk_000.mp4" 0 [1, 2] (by decide), ?_⟩
  refine h.2.2 diskEmpty ["host_chunks/chunk_000.mp4"] [5] 9
    "host_chunks/chunk_000.mp4" ?_ (List.mem_singleton.mpr rfl) rfl
  intro p hp
  rw [List.mem_singleton] at hp
  subst hp
  rfl

theorem mem_scanStable_ftp (listing : List (String × Nat)) :
    ∀ (entries : List (String × Nat)) (f : String),
    f ∈ (scanStable listing entries).1 ↔
      ∃ rec, (f, rec) ∈ entries ∧ getsize listing f = some rec ∧ 0 < rec ∧
        matchesPattern f = true := by
  intro entries
  induction entries with
  | nil =>
    intro f
    simp [scanStable]
  | cons e rest ih =>
    intro f
    obtain ⟨g, last⟩ := e
    simp only [scanStable, List.mem_cons]
    cases hg : getsize listing g with
    | none =>
      dsimp only
      rw [ih f]
      constructor
      · rintro ⟨rec, hmem, hsz, hpos, hpat⟩
        exact ⟨rec, Or.inr hmem, hsz, hpos, hpat⟩
      · rintro ⟨rec, heq | hmem, hsz, hpos, hpat⟩
        · injection heq with h1 h2
          subst h1
          rw [hg] at hsz
          cases hsz
        · exact ⟨rec, hmem, hsz, hpos, hpat⟩
    | some cur =>
      dsimp only
      by_cases hstable : cur = last ∧ 0 < cur
      · rw [if_pos hstable]
        dsimp only
        by_cases hpatg : matchesPattern g = true
        · rw [if_pos hpatg, List.mem_cons, ih f]
          constructor
          · rintro (rfl | ⟨rec, hmem, hsz, hpos, hpat⟩)
            · exact ⟨last, Or.inl rfl, by rw [hg, hstable.1], hstable.1 ▸ hstable.2,
                hpatg⟩
            · exact ⟨rec, Or.inr hmem, hsz, hpos, hpat⟩
          · rintro ⟨rec, heq | hmem, hsz, hpos, hpat⟩
            · injection heq with h1 h2
              exact Or.inl h1
            · exact Or.inr ⟨rec, hmem, hsz, hpos, hpat⟩
        · rw [if_neg hpatg, ih f]
          constructor
          · rintro ⟨rec, hmem, hsz, hpos, hpat⟩
            exact ⟨rec, Or.inr hmem, hsz, hpos, hpat⟩
          · rintro ⟨rec, heq | hmem, hsz, hpos, hpat⟩
            · injection heq with h1 h2
              subst h1
              exact absurd hpat hpatg
            · exact ⟨rec, hmem, hsz, hpos, hpat⟩
      · rw [if_neg hstable]
        have hbr : ∀ f, f ∈ (if cur ≠ last then ((scanStable listing rest).1,
              (scanStable listing rest).2.1, (g, cur) :: (scanStable listing rest).2.2)
            else ((scanStable listing rest).1, (scanStable listing rest).2.1,
              (g, last) :: (scanStable listing rest).2.2)).1 ↔
            f ∈ (scanStable listing rest).1 := by
          intro f
          by_cases hne : cur ≠ last
          · rw [if_pos hne]
          · rw [if_neg hne]
        rw [hbr f, ih f]
        constructor
        · rintro ⟨rec, hmem, hsz, hpos, hpat⟩
          exact ⟨rec, Or.inr hmem, hsz, hpos, hpat⟩
        · rintro ⟨rec, heq | hmem, hsz, hpos, hpat⟩
          · exfalso
            injection heq with h1 h2
            subst h1
            subst h2
            rw [hg] at hsz
            injection hsz with h3
            exact hstable ⟨h3, h3 ▸ hpos⟩
          · exact ⟨rec, hmem, hsz, hpos, hpat⟩

theorem keys_nodup_val_eq {l : List (String × Nat)}
    (h : (l.map Prod.fst).Nodup) {a : String} {b₁ b₂ : Nat}
    (h1 : (a, b₁) ∈ l) (h2 : (a, b₂) ∈ l) : b₁ = b₂ := by
  induction l with
  | nil => cases h1
  | cons e rest ih =>
    obtain ⟨k, v⟩ := e
    have h' : (k :: rest.map Prod.fst).Nodup := by simpa using h
    have hk : k ∉ rest.map Prod.fst := (List.nodup_cons.mp h').1
    have hrest : (rest.map Prod.fst).Nodup := (List.nodup_cons.mp h').2
    rcases List.mem_cons.mp h1 with he1 | hm1 <;>
      rcases List.mem_cons.mp h2 with he2 | hm2
    · have := congrArg Prod.snd he1
      have := congrArg Prod.snd he2
      simp_all
    · exfalso
      have ha : a = k := by
        have := congrArg Prod.fst he1
        simpa using this
      exact hk (ha ▸ List.mem_map_of_mem Prod.fst hm2)
    · exfalso
      have ha : a = k := by
        have := congrArg Prod.fst he2
        simpa using this
      exact hk (ha ▸ List.mem_map_of_mem Prod.fst hm1)
    · exact ih hrest hm1 hm2

theorem processLoop_bcast_mem (files : List String) (avail : List String)
    (proc : List Int) (f : String) (i : Int)
    (h : (f, i) ∈ (processLoop files avail proc).2.2) : f ∈ files := by
  induction files generalizing avail proc with
  | nil => cases h
  | cons g rest ih =>
    simp only [processLoop] at h
    cases hg : parseIdx g with
    | none =>
      rw [hg] at h
      dsimp only at h
      exact List.mem_cons_of_mem _ (ih _ _ h)
    | some idx =>
      rw [hg] at h
      dsimp only at h
      by_cases hc : proc.contains idx = true
      · rw [if_pos hc] at h
        exact List.mem_cons_of_mem _ (ih _ _ h)
      · rw [if_neg hc] at h
        dsimp only at h
        rcases List.mem_cons.mp h with heq | hmem
        · injection heq with h1 h2
          exact List.mem_cons.mpr (Or.inl h1)
        · exact List.mem_cons_of_mem _ (ih _ _ hmem)

theorem sortFiles_perm (l : List String) : List.Perm (sortFiles l) l := by
  simpa using foldl_insertByKey_perm (fun f => (parseIdx f).getD 0) l []

/-- Claim C5 (stability gate), for regular (non-final) poll cycles: (a) a
watched file whose current size differs from the recorded size is not in
files_to_process this cycle (line 292 merely updates the recorded size);
(b) a file is eligible this cycle only if its recorded size from the
previous cycle equals its current size, that size is positive, and the name
matches the segment pattern — i.e. only after one full polling interval with
an unchanged, non-zero size; (c) every broadcast of the cycle is of an
eligible file, so a changed file is also never emitted.  (The final-flush
alternative of the claim is the subject of C9.) -/
theorem C5_stability_gate (listing : List (String × Nat)) (st : WatchState)
    (hkeys : (st.stable_files.map Prod.fst).Nodup) :
    (∀ f rec cur, (f, rec) ∈ st.stable_files → getsize listing f = some cur →
      cur ≠ rec → f ∉ eligibleFiles listing false st) ∧
    (∀ f, f ∈ eligibleFiles listing false st →
      ∃ rec, (f, rec) ∈ st.stable_files ∧ getsize listing f = some rec ∧
        0 < rec ∧ matchesPattern f = true) ∧
    (∀ f i, (f, i) ∈ (check_for_new_chunks listing false st).2 →
      f ∈ eligibleFiles listing false st) := by
  have hchar : ∀ f, f ∈ eligibleFiles listing false st ↔
      ∃ rec, (f, rec) ∈ st.stable_files ∧ getsize listing f = some rec ∧
        0 < rec ∧ matchesPattern f = true := by
    intro f
    unfold eligibleFiles baseFtp
    rw [if_neg (by exact Bool.false_ne_true)]
    exact mem_scanStable_ftp listing st.stable_files f
  refine ⟨?_, fun f => (hchar f).mp, ?_⟩
  · intro f rec cur hmem hsz hne helig
    obtain ⟨rec', hmem', hsz', _, _⟩ := (hchar f).mp helig
    have : rec' = rec := keys_nodup_val_eq hkeys hmem' hmem
    rw [hsz'] at hsz
    injection hsz with h1
    exact hne (by rw [← h1, this])
  · intro f i hb
    unfold check_for_new_chunks at hb
    by_cases hok : sortKeyOk (eligibleFiles listing false st) = true
    · rw [if_pos hok] at hb
      dsimp only at hb
      have := processLoop_bcast_mem _ _ _ _ _ hb
      exact (sortFiles_perm _).mem_iff.mp this
    · rw [if_neg hok] at hb
      cases hb

/-- Witness for C5 at a concrete instance: the watched file recorded at
size 5 now has size 9, so it is not eligible; in a state where its size is
unchanged at 4 it is eligible, with the stability facts recovered. -/
theorem C5_stability_gate_witness :
    "chunk_000.mp4" ∉ eligibleFiles [("chunk_000.mp4", 9)] false
      ⟨["chunk_000.mp4"], [("chunk_000.mp4", 5)], [], []⟩ ∧
    ∃ rec, ("chunk_001.mp4", rec) ∈
        (⟨["chunk_001.mp4"], [("chunk_001.mp4", 4)], [], []⟩ : WatchState).stable_files ∧
      getsize [("chunk_001.mp4", 4)] "chunk_001.mp4" = some rec ∧ 0 < rec ∧
      matchesPattern "chunk_001.mp4" = true := by
  constructor
  · exact (C5_stability_gate [("chunk_000.mp4", 9)]
      ⟨["chunk_000.mp4"], [("chunk_000.mp4", 5)], [], []⟩ (by decide)).1
      "chunk_000.mp4" 5 9 (by decide) rfl (by decide)
  · exact (C5_stability_gate [("chunk_001.mp4", 4)]
      ⟨["chunk_001.mp4"], [("chunk_001.mp4", 4)], [], []⟩ (by decide)).2.1
      "chunk_001.mp4" (by decide)

theorem finalPass_ftp_mono (listing : List (String × Nat)) (proc : List Int) :
    ∀ (l : List String) (ftp : List String) (stable : List (String × Nat))
      (g : String), g ∈ ftp → g ∈ (finalPass listing proc l (ftp, stable)).1 := by
  intro l
  induction l with
  | nil =>
    intro ftp stable g hg
    exact hg
  | cons f rest ih =>
    intro ftp stable g hg
    simp only [finalPass]
    by_cases hcontains : ftp.contains f = true
    · rw [if_pos hcontains]
      exact ih ftp stable g hg
    · rw [if_neg hcontains]
      cases hp : parseIdx f with
      | none => exact ih ftp stable g hg
      | some idx =>
        dsimp only
        by_cases hproc : proc.contains idx = true
        · rw [if_pos hproc]
          exact ih ftp stable g hg
        · rw [if_neg hproc]
          cases hsz : getsize listing f with
          | none => exact ih _ _ g hg
          | some sz =>
            dsimp only
            by_cases hpos : 0 < sz
            · rw [if_pos hpos]
              exact ih _ _ g (List.mem_append_left _ hg)
            · rw [if_neg hpos]
              exact ih _ _ g hg

theorem finalPass_adds (listing : List (String × Nat)) (proc : List Int)
    (f : String) (sz : Nat) (idx : Int)
    (hsz : getsize listing f = some sz) (hpos : 0 < sz)
    (hparse : parseIdx f = some idx) (hproc : proc.contains idx = false) :
    ∀ (l : List String) (ftp : List String) (stable : List (String × Nat)),
      f ∈ l → f ∈ (finalPass listing proc l (ftp, stable)).1 := by
  intro l
  induction l with
  | nil =>
    intro ftp stable hf
    cases hf
  | cons g rest ih =>
    intro ftp stable hf
    simp only [finalPass]
    by_cases hgf : g = f
    · subst hgf
      by_cases hcontains : ftp.contains g = true
      · rw [if_pos hcontains]
        exact finalPass_ftp_mono listing proc rest ftp stable g
          (by simpa using hcontains)
      · rw [if_neg hcontains]
        rw [hparse]
        dsimp only
        rw [if_neg (by rw [hproc]; exact Bool.false_ne_true)]
        rw [hsz]
        dsimp only
        rw [if_pos hpos]
        exact finalPass_ftp_mono listing proc rest _ stable g
          (List.mem_append_right _ (List.mem_singleton.mpr rfl))
    · have hf' : f ∈ rest := by
        rcases List.mem_cons.mp hf with h | h
        · exact absurd h.symm hgf
        · exact h
      by_cases hcontains : ftp.contains g = true
      · rw [if_pos hcontains]
        exact ih ftp stable hf'
      · rw [if_neg hcontains]
        cases hp : parseIdx g with
        | none => exact ih ftp stable hf'
        | some idx' =>
          dsimp only
          by_cases hproc' : proc.contains idx' = true
          · rw [if_pos hproc']
            exact ih ftp stable hf'
          · rw [if_neg hproc']
            cases hszg : getsize listing g with
            | none => exact ih _ _ hf'
            | some szg =>
              dsimp only
              by_cases hposg : 0 < szg
              · rw [if_pos hposg]
                exact ih _ _ hf'
              · rw [if_neg hposg]
                exact ih _ _ hf'

theorem monitorCalls_final (n : Nat) (rest : List Bool) :
    monitorCalls (List.replicate n false ++ true :: rest) =
      List.replicate n false ++ [true] := by
  induction n with
  | zero => rfl
  | succ n ih =>
    rw [List.replicate_succ, List.cons_append]
    simp only [monitorCalls, if_neg (by exact Bool.false_ne_true)]
    rw [ih, List.cons_append]

theorem mem_finalFiles (listing : List (String × Nat)) (f : String) (sz : Nat)
    (hsz : getsize listing f = some sz) (hpat : matchesPattern f = true) :
    f ∈ finalFiles listing := by
  have hs : (listing.lookup f).isSome := by
    rw [show listing.lookup f = getsize listing f from rfl, hsz]
    rfl
  rw [List.lookup_isSome_iff] at hs
  obtain ⟨p, hp, hbeq⟩ := hs
  have hf : f = p.1 := by simpa using hbeq
  exact List.mem_filter.mpr ⟨hf ▸ List.mem_map_of_mem Prod.fst hp, hpat⟩

/-- Claim C9 (final flush): once the encoder process has exited,
monitor_and_send runs exactly one additional check_for_new_chunks pass with
final_check=True (one per whole run, as the last pass); in that pass every
pattern-matching file of the directory that is non-empty and whose parsed
index is not yet processed is classified eligible unconditionally — in
particular it need not appear in stable_files at all, so no stability
interval is waited for. -/
theorem C9_final_flush (listing : List (String × Nat)) (st : WatchState)
    (f : String) (sz : Nat) (idx : Int)
    (hsz : getsize listing f = some sz) (hpos : 0 < sz)
    (hpat : matchesPattern f = true) (hparse : parseIdx f = some idx)
    (hproc : st.processed_chunk_indices.contains idx = false) :
    f ∈ eligibleFiles listing true st ∧
    (∀ (n : Nat) (rest : List Bool),
      monitorCalls (List.replicate n false ++ true :: rest) =
        List.replicate n false ++ [true]) := by
  constructor
  · unfold eligibleFiles
    rw [if_pos rfl]
    exact finalPass_adds listing st.processed_chunk_indices f sz idx hsz hpos
      hparse hproc (finalFiles listing) _ _ (mem_finalFiles listing f sz hsz hpat)
  · exact monitorCalls_final

/-- Witness for C9 at a concrete instance: a file never seen before (not in
stable_files of the fresh state) is eligible in the final pass at once, and
a monitor run of one plain cycle followed by encoder exit performs exactly
one final pass at the end. -/
theorem C9_final_flush_witness :
    "chunk_005.mp4" ∈ eligibleFiles [("chunk_005.mp4", 3)] true initWatch ∧
    monitorCalls [false, true] = [false, true] := by
  have h := C9_final_flush [("chunk_005.mp4", 3)] initWatch "chunk_005.mp4" 3 5
    rfl (by decide) (by decide) (by decide) rfl
  exact ⟨h.1, h.2 1 []⟩

/-- Claim C8 is the intent of the code — the per-file except-ValueError arm
of line 350 is written to ignore unparseable names — but the code has a
slip: the sort key of line 333 re-parses every files_to_process entry, and
for chunk_abc.mp4 (stable and non-empty on the second cycle, hence in
files_to_process) int() raises ValueError out of the per-file loop into the
generic handler of line 359, aborting the whole cycle.  This theorem
evaluates the model at that input: on the second cycle chunk_000.mp4 is
eligible (stable, non-zero, parseable as index 0), yet nothing is broadcast,
nothing is appended to available_chunk_paths, no index is processed — and
the third cycle still emits nothing (the loss is permanent, because
last_checked_files already contains both names from cycle one, so they are
never re-detected).  The control run without the stray file broadcasts
chunk_000.mp4 on its second cycle. -/
theorem C8_unparseable_name_aborts_cycle :
    parseIdx "chunk_abc.mp4" = none ∧
    matchesPattern "chunk_abc.mp4" = true ∧
    parseIdx "chunk_000.mp4" = some 0 ∧
    "chunk_000.mp4" ∈ eligibleFiles L8 false st8 ∧
    (check_for_new_chunks L8 false st8).2 = [] ∧
    (check_for_new_chunks L8 false st8).1.available_chunk_paths = [] ∧
    (check_for_new_chunks L8 false st8).1.processed_chunk_indices = [] ∧
    (check_for_new_chunks L8 false (check_for_new_chunks L8 false st8).1).2 = [] ∧
    (check_for_new_chunks [("chunk_000.mp4", 5)] false
      (check_for_new_chunks [("chunk_000.mp4", 5)] false initWatch).1).2 =
      [("chunk_000.mp4", 0)] := by
  refine ⟨rfl, rfl, rfl, by decide, rfl, rfl, rfl, rfl, rfl⟩

/-- Witness for C1 at concrete parameters: k = 1 (segments 0 and 1
appended before the snapshot, segment 0 already broadcast), one append
between replay and registration, three broadcast passes afterwards; the
received sequence is [0, 1, 1, 2] — backlog [0, 1] first, the duplicate of
1 after it, and index 2 only after the backlog. -/
theorem C1_late_join_completeness_witness :
    (runTrace ([Ev.append, Ev.broadcast, Ev.append] ++ Ev.snapshot ::
      ([] ++ Ev.replay :: ([Ev.append] ++ Ev.register ::
        [Ev.broadcast, Ev.broadcast, Ev.broadcast])))).received.take 2 =
      List.range 2 ∧
    ∀ n i, (runTrace ([Ev.append, Ev.broadcast, Ev.append] ++ Ev.snapshot ::
      ([] ++ Ev.replay :: ([Ev.append] ++ Ev.register ::
        [Ev.broadcast, Ev.broadcast, Ev.broadcast])))).received[n]? = some i →
      1 < i → 2 ≤ n :=
  C1_late_join_completeness 1 [Ev.append, Ev.broadcast, Ev.append] []
    [Ev.append] [Ev.broadcast, Ev.broadcast, Ev.broadcast]
    (by decide) (by decide) (by decide) (by decide) (by decide)

/-- Witness for the amended C2 at concrete parameters (two complete
append-and-broadcast rounds before the snapshot, one after the
registration, nothing in between). -/
theorem C2_ordering_amended_witness :
    (runTrace (monCycles 2 ++ Ev.snapshot :: Ev.replay :: Ev.register ::
      monCycles 1)).received = List.range (2 + 1) ∧
    List.Pairwise (· < ·)
      (runTrace (monCycles 2 ++ Ev.snapshot :: Ev.replay :: Ev.register ::
        monCycles 1)).received :=
  C2_ordering_amended 2 1
